import Mathlib

/-!
Verification of the dreamfinders document relevance-scoring and selection
core. The definitions below are a shallow embedding of the Python code in
clean_find_matching.py (find_matching_documents, calculate_enhanced_relevance),
document_rag_explorer.py (which contains the same scorer and selector), and
enhanced_matching.py (the drifted scorer variant). Strings are modelled as
List Char and Python exceptions as Except.

Python float scores are modelled exactly: every weight in the code is a
multiple of 0.05, so raw accumulated scores are kept as natural numbers in
units of 1/20 (a table weight 0.5 is stored as 10), and the final normalized
score min(raw / 3, 1) is the natural number min(raw, 60) in units of 1/60.
The rational-valued scorers divide by 60 at the end, so
calculate_enhanced_relevance returns the exact value of the Python float
expression under real arithmetic.
-/

namespace Dreamfinders

/-- Model of the Python str.lower method (ASCII case folding). -/
def pyLower (s : List Char) : List Char := s.map Char.toLower

/-- Checks whether the pattern is an initial segment of the list, the way a
Python substring test anchors at one position. -/
def startsWith : List Char → List Char → Bool
  | [], _ => true
  | _ :: _, [] => false
  | p :: ps, c :: cs => p == c && startsWith ps cs

/-- Model of the Python substring test (the in operator on str): the pattern
occurs at some position of the list. -/
def strContains (p : List Char) : List Char → Bool
  | [] => startsWith p []
  | c :: s => startsWith p (c :: s) || strContains p s

/-- Greedy non-overlapping occurrence counter, skipping a full pattern length
after each hit; the skip argument tracks positions still to jump over. -/
def countAux (p : List Char) : List Char → Nat → Nat
  | [], _ => 0
  | _ :: s, n + 1 => countAux p s n
  | c :: s, 0 =>
    if startsWith p (c :: s) then 1 + countAux p s (p.length - 1)
    else countAux p s 0

/-- Model of the Python str.count method: the number of non-overlapping
occurrences of the pattern, scanning left to right. -/
def pyCount (p s : List Char) : Nat :=
  if p = [] then s.length + 1 else countAux p s 0

/-- Whitespace recognizer matching the characters Python str.split splits on. -/
def isSpaceChar (c : Char) : Bool :=
  c == ' ' || c == '\t' || c == '\n' || c == '\r' || c == '\x0b' || c == '\x0c'

/-- Accumulator-based splitter used to model Python str.split with no
arguments: runs of whitespace separate words, empty pieces are dropped. -/
def splitAux : List Char → List Char → List (List Char)
  | [], acc => if acc = [] then [] else [acc.reverse]
  | c :: rest, acc =>
    if isSpaceChar c then
      (if acc = [] then splitAux rest [] else acc.reverse :: splitAux rest [])
    else splitAux rest (c :: acc)

/-- Model of Python str.split with no arguments. -/
def pySplit (s : List Char) : List (List Char) := splitAux s []

/-- Minimum on natural numbers by direct comparison, kept kernel-computable. -/
def nmin (a b : Nat) : Nat := if a ≤ b then a else b

/-! ### Scorer of clean_find_matching.py and document_rag_explorer.py

All weights are stored scaled by 20, so they stay natural numbers. -/

/-- The critical_keywords weight table of calculate_enhanced_relevance in
clean_find_matching.py (identical in document_rag_explorer.py), in Python
dict insertion order; weights are scaled by 20 (0.5 is stored as 10). -/
def criticalKeywords : List (List Char × Nat) :=
  [("apr".data, 10), ("rate".data, 8), ("buydown".data, 12),
   ("mortgage".data, 8), ("financing".data, 10),
   ("payment".data, 6), ("monthly".data, 6),
   ("2.99%".data, 16), ("5.572%".data, 16),
   ("special".data, 10), ("event".data, 8), ("promotion".data, 10),
   ("limited".data, 8), ("offer".data, 8),
   ("sale".data, 8), ("national".data, 6), ("incentive".data, 10),
   ("price".data, 8), ("reduction".data, 10), ("reduced".data, 10),
   ("discount".data, 10),
   ("$".data, 6), ("cost".data, 6),
   ("available".data, 6), ("inventory".data, 8), ("move-in".data, 8),
   ("ready".data, 6),
   ("lennar".data, 6), ("meritage".data, 6)]

/-- Amount one keyword table entry adds to the score in the critical-keyword
loop of clean_find_matching.py: when the keyword occurs, the occurrence count
capped at 3 times the weight (score += min(count, 3) * weight). -/
def kwContrib (textLower : List Char) (kw : List Char × Nat) : Nat :=
  if strContains kw.1 textLower then nmin (pyCount kw.1 textLower) 3 * kw.2
  else 0

/-- Total of the critical-keyword loop of calculate_enhanced_relevance in
clean_find_matching.py. -/
def keywordScore (textLower : List Char) : Nat :=
  (criticalKeywords.map (kwContrib textLower)).sum

/-- Dict key lookup in the critical_keywords table. -/
def lookupKeyword (w : List Char) : Option Nat :=
  (criticalKeywords.find? (fun kw => decide (kw.1 = w))).map (fun kw => kw.2)

/-- Amount one word of a search term adds in the word-matching loop of
clean_find_matching.py: skipped below length 3, the table weight when it is a
critical keyword, a flat 0.15 (scaled: 3) otherwise. -/
def wordContrib (textLower w : List Char) : Nat :=
  if w.length < 3 then 0
  else if strContains w textLower then
    match lookupKeyword w with
    | some wt => wt
    | none => 3
  else 0

/-- Amount one search term adds in clean_find_matching.py: an exact phrase
match short-circuits with min(occurrences * 0.6, 1.5) (scaled:
min(occurrences * 12, 30)); otherwise words are matched one by one and a 0.3
completeness bonus (scaled: 6) fires when at least 0.7 of the words matched
(matched / len(words) >= 0.7 is the exact integer test 7 * len <= 10 *
matched). -/
def termScore (textLower term : List Char) : Nat :=
  let tl := pyLower term
  if 3 < tl.length ∧ strContains tl textLower then
    nmin (pyCount tl textLower * 12) 30
  else
    let words := pySplit tl
    let matched := (words.filter
      (fun w => decide (3 ≤ w.length) && strContains w textLower)).length
    (words.map (wordContrib textLower)).sum +
      (if 1 < words.length ∧ 7 * words.length ≤ 10 * matched then 6 else 0)

/-- The high_value_patterns list of clean_find_matching.py, weights scaled
by 20. -/
def highValuePatterns : List (List Char × Nat) :=
  [("national sales event".data, 16), ("special financing".data, 14),
   ("2.99% apr".data, 18), ("limited time".data, 10),
   ("move-in ready".data, 10), ("price reduction".data, 12)]

/-- Total of the high-value pattern loop of clean_find_matching.py. -/
def patternScore (textLower : List Char) : Nat :=
  (highValuePatterns.map
    (fun p => if strContains p.1 textLower then p.2 else 0)).sum

/-- File name bonus of clean_find_matching.py: 0.2 (scaled: 4) once if any
non-empty term occurs in the lowercased file name. -/
def fileBonus (fileLower : List Char) (terms : List (List Char)) : Nat :=
  if terms.any (fun t => !t.isEmpty && strContains (pyLower t) fileLower)
  then 4 else 0

/-- Raw accumulated score of calculate_enhanced_relevance in
clean_find_matching.py, in units of 1/20: the four additive passes. -/
def rawScore (text : List Char) (searchTerms : List (List Char))
    (fileName : List Char) : Nat :=
  let tl := pyLower text
  keywordScore tl
    + (searchTerms.map (fun t => if t = [] then 0 else termScore tl t)).sum
    + patternScore tl
    + fileBonus (pyLower fileName) searchTerms

/-- Final score of calculate_enhanced_relevance in clean_find_matching.py in
units of 1/60: min(raw / 3.0, 1.0) equals min(raw, 60) sixtieths. -/
def relevanceNat (text : List Char) (searchTerms : List (List Char))
    (fileName : List Char) : Nat :=
  nmin (rawScore text searchTerms fileName) 60

/-- Embedding of calculate_enhanced_relevance from clean_find_matching.py
(the function in document_rag_explorer.py is character for character the
same): the exact rational value of the returned Python float. -/
def calculate_enhanced_relevance (text : List Char)
    (searchTerms : List (List Char)) (fileName : List Char) : ℚ :=
  (relevanceNat text searchTerms fileName : ℚ) / 60

/-! ### Scorer variant of enhanced_matching.py -/

/-- The critical_keywords table of calculate_enhanced_relevance in
enhanced_matching.py, in Python dict insertion order; weights scaled by 20. -/
def criticalKeywordsE : List (List Char × Nat) :=
  [("apr".data, 10), ("rate".data, 8), ("buydown".data, 12),
   ("mortgage".data, 8), ("financing".data, 10),
   ("payment".data, 6), ("monthly".data, 6),
   ("qualification".data, 6), ("credit".data, 6),
   ("special".data, 10), ("event".data, 8), ("promotion".data, 10),
   ("limited".data, 8), ("offer".data, 8),
   ("sale".data, 8), ("national".data, 6), ("exclusive".data, 8),
   ("incentive".data, 10),
   ("price".data, 8), ("reduction".data, 10), ("reduced".data, 10),
   ("discount".data, 10),
   ("$".data, 6), ("cost".data, 6), ("affordable".data, 6),
   ("starting".data, 6),
   ("available".data, 6), ("inventory".data, 8), ("move-in".data, 8),
   ("ready".data, 6), ("quick".data, 6), ("immediate".data, 6),
   ("lennar".data, 6), ("meritage".data, 6)]

/-- Amount one keyword entry adds in enhanced_matching.py: when the keyword
occurs, min(count * weight, weight * 2) — capped at twice the weight, unlike
the min(count, 3) cap of the other two modules. -/
def kwContribE (textLower : List Char) (kw : List Char × Nat) : Nat :=
  if strContains kw.1 textLower then
    nmin (pyCount kw.1 textLower * kw.2) (kw.2 * 2)
  else 0

/-- Total of the critical-keyword loop of enhanced_matching.py. -/
def keywordScoreE (textLower : List Char) : Nat :=
  (criticalKeywordsE.map (kwContribE textLower)).sum

/-- Dict key lookup in the enhanced_matching.py keyword table. -/
def lookupKeywordE (w : List Char) : Option Nat :=
  (criticalKeywordsE.find? (fun kw => decide (kw.1 = w))).map (fun kw => kw.2)

/-- Amount one word adds in enhanced_matching.py: a known keyword adds
weight * min(occurrences, 3); an unknown word adds min(occurrences * 0.15,
0.4) (scaled: min(occurrences * 3, 8)). -/
def wordContribE (textLower w : List Char) : Nat :=
  if w.length < 3 then 0
  else if strContains w textLower then
    match lookupKeywordE w with
    | some wt => wt * nmin (pyCount w textLower) 3
    | none => nmin (pyCount w textLower * 3) 8
  else 0

/-- Amount one search term adds in enhanced_matching.py: phrase match as in
the other modules; word matching with per-occurrence weights; a two-tier
completeness bonus of 0.3 at fraction 0.7 and 0.15 at fraction 0.5 (scaled 6
and 3), only when at least one word matched. -/
def termScoreE (textLower term : List Char) : Nat :=
  let tl := pyLower term
  if 3 < tl.length ∧ strContains tl textLower then
    nmin (pyCount tl textLower * 12) 30
  else
    let words := pySplit tl
    let matched := (words.filter
      (fun w => decide (3 ≤ w.length) && strContains w textLower)).length
    (words.map (wordContribE textLower)).sum +
      (if 1 < words.length ∧ 0 < matched then
        (if 7 * words.length ≤ 10 * matched then 6
         else if words.length ≤ 2 * matched then 3 else 0)
       else 0)

/-- The high_value_patterns list of enhanced_matching.py, weights scaled
by 20. -/
def highValuePatternsE : List (List Char × Nat) :=
  [("national sales event".data, 16), ("special financing".data, 14),
   ("limited time".data, 10), ("move-in ready".data, 10),
   ("price reduction".data, 12), ("apr buydown".data, 16),
   ("closing cost".data, 10), ("monthly payment".data, 10)]

/-- Total of the high-value pattern loop of enhanced_matching.py. -/
def patternScoreE (textLower : List Char) : Nat :=
  (highValuePatternsE.map
    (fun p => if strContains p.1 textLower then p.2 else 0)).sum

/-- File name bonus of enhanced_matching.py: 0.2 (scaled: 4) for the lennar
match and 0.2 for the meritage match, independently. -/
def fileBonusE (fileLower : List Char) (terms : List (List Char)) : Nat :=
  (if strContains "lennar".data fileLower ∧
      terms.any (fun t => strContains "lennar".data (pyLower t)) then 4 else 0)
  + (if strContains "meritage".data fileLower ∧
      terms.any (fun t => strContains "meritage".data (pyLower t)) then 4
     else 0)

/-- Raw accumulated score of calculate_enhanced_relevance in
enhanced_matching.py, in units of 1/20. -/
def rawScoreE (text : List Char) (searchTerms : List (List Char))
    (fileName : List Char) : Nat :=
  let tl := pyLower text
  keywordScoreE tl
    + (searchTerms.map (fun t => if t = [] then 0 else termScoreE tl t)).sum
    + patternScoreE tl
    + fileBonusE (pyLower fileName) searchTerms

/-- Final score of calculate_enhanced_relevance in enhanced_matching.py in
units of 1/60. -/
def relevanceNatE (text : List Char) (searchTerms : List (List Char))
    (fileName : List Char) : Nat :=
  nmin (rawScoreE text searchTerms fileName) 60

/-- Embedding of calculate_enhanced_relevance from enhanced_matching.py:
the exact rational value of the returned Python float. -/
def calculate_enhanced_relevance_em (text : List Char)
    (searchTerms : List (List Char)) (fileName : List Char) : ℚ :=
  (relevanceNatE text searchTerms fileName : ℚ) / 60

/-! ### Selector of find_matching_documents in clean_find_matching.py
(the selector in document_rag_explorer.py is character for character the
same) -/

/-- A document chunk as loaded from pack.json, with the fields the matching
code reads. -/
structure Chunk where
  text : List Char
  file_name : List Char
  chunk_index : Nat
deriving DecidableEq, Repr

/-- A scored copy of a chunk, as built by the source.copy() plus
match_score plus url assignments; match_score holds the exact score in units
of 1/60. -/
structure ScoredChunk where
  text : List Char
  file_name : List Char
  chunk_index : Nat
  match_score : Nat
  url : List Char
deriving DecidableEq, Repr

/-- Document id chosen from hardcoded constants by substring tests on the
file name, as in clean_find_matching.py. -/
def docId (fileName : List Char) : List Char :=
  if strContains "Lennar".data fileName then
    "abb40c5f-f259-48bf-85c3-d2ed1ea956b8".data
  else if strContains "Meritage".data fileName then
    "7f0292db-d935-4c90-b65b-897bb98167f9".data
  else "unknown".data

/-- Citation url built from the hardcoded host, the hardcoded document id
and the chunk index, exactly as the f-string in clean_find_matching.py. -/
def mkUrl (fileName : List Char) (chunkIndex : Nat) : List Char :=
  "https://dreamfinders.poc.answerrocket.com/apps/system/knowledge-base/".data
    ++ docId fileName ++ "#page=".data ++ (Nat.repr chunkIndex).data

/-- The comparison cue words of clean_find_matching.py. -/
def comparisonWords : List (List Char) :=
  ["competitors".data, "competition".data, "both".data, "compare".data,
   "versus".data, "vs".data]

/-- The wants_comparison test of clean_find_matching.py on the lowercased
question. -/
def wantsComparisonB (questionLower : List Char) : Bool :=
  comparisonWords.any (fun w => strContains w questionLower)

/-- The condition guarding the second selection pass: wants_comparison or
mentions_both. -/
def wantsBothB (questionLower : List Char) : Bool :=
  wantsComparisonB questionLower ||
    (strContains "lennar".data questionLower &&
     strContains "meritage".data questionLower)

/-- The keyword_expansions dict of clean_find_matching.py. -/
def keywordExpansions : List (List Char × List (List Char)) :=
  [("financing".data,
    ["financing", "finance", "mortgage", "loan", "apr", "rate", "payment",
     "buydown", "interest", "monthly payment", "qualification", "credit",
     "2.99%", "5.572%"].map String.data),
   ("special".data,
    ["special", "promotion", "offer", "event", "sale", "limited time",
     "exclusive", "discount", "incentive", "deal", "savings",
     "national sales event"].map String.data),
   ("price".data,
    ["price", "pricing", "cost", "$", "reduction", "reduced", "discount",
     "drop", "decrease", "lower", "affordable", "starting from"].map
      String.data),
   ("inventory".data,
    ["inventory", "available", "availability", "move-in ready", "quick move",
     "homes available", "in stock", "ready now"].map String.data)]

/-- Case-insensitive order-preserving deduplication that also drops empty
terms, modelling the seen-set loop of clean_find_matching.py. -/
def dedupAux : List (List Char) → List (List Char) → List (List Char)
  | _, [] => []
  | seen, t :: rest =>
    if t = [] then dedupAux seen rest
    else if pyLower t ∈ seen then dedupAux seen rest
    else t :: dedupAux (pyLower t :: seen) rest

/-- Deduplicated search-term list. -/
def dedupCI (l : List (List Char)) : List (List Char) := dedupAux [] l

/-- Search-term construction of find_matching_documents in
clean_find_matching.py: the question, triggered keyword expansions, the
competitor names when mentioned or comparing, the topics, then case
insensitive deduplication. -/
def buildUniqueTerms (userQuestion : List Char)
    (topics : List (List Char)) : List (List Char) :=
  let ql := pyLower userQuestion
  let t1 := if userQuestion = [] then [] else [userQuestion]
  let t2 := t1 ++ (keywordExpansions.map
    (fun kv => if strContains kv.1 ql then kv.2 else [])).flatten
  let t3 := t2 ++
    (if strContains "lennar".data ql || wantsComparisonB ql then
      ["lennar".data] else [])
  let t4 := t3 ++
    (if strContains "meritage".data ql || wantsComparisonB ql then
      ["meritage".data] else [])
  dedupCI (t4 ++ topics.filter (fun t => t ≠ []))

/-- The threshold test score >= float(match_threshold) of
clean_find_matching.py, stated exactly on the 1/60-scaled score:
thr <= s/60 iff thr.num * 60 <= thr.den * s. -/
def passesThreshold (thr : ℚ) (s : Nat) : Bool :=
  decide (thr.num * 60 ≤ (thr.den : Int) * (s : Int))

/-- Scoring-and-filtering loop of find_matching_documents in
clean_find_matching.py: each source above threshold becomes a copy carrying
match_score and the generated url. -/
def scoreSources (terms : List (List Char)) (thr : ℚ)
    (srcs : List Chunk) : List ScoredChunk :=
  srcs.filterMap (fun c =>
    let sc := relevanceNat c.text terms c.file_name
    if passesThreshold thr sc then
      some ⟨c.text, c.file_name, c.chunk_index, sc,
            mkUrl c.file_name c.chunk_index⟩
    else none)

/-- Stable insertion into a list sorted by descending match_score: the new
element goes after all existing elements of greater or equal score. -/
def insertDesc (s : ScoredChunk) : List ScoredChunk → List ScoredChunk
  | [] => [s]
  | t :: rest =>
    if s.match_score ≤ t.match_score then t :: insertDesc s rest
    else s :: t :: rest

/-- Stable descending sort by match_score, modelling the Python
sort(key=score, reverse=True), which is stable. -/
def sortDesc (l : List ScoredChunk) : List ScoredChunk :=
  l.foldl (fun acc s => insertDesc s acc) []

/-- First selection pass of find_matching_documents: greedy fill stopping at
max_sources, or at the character budget once at least 2 chunks are kept. -/
def pass1 (maxS maxC : Int) : List ScoredChunk → Nat → Int → List ScoredChunk
  | [], _, _ => []
  | s :: rest, cnt, chars =>
    if maxS ≤ (cnt : Int) then []
    else if 2 ≤ cnt ∧ maxC < chars + (s.text.length : Int) then []
    else s :: pass1 maxS maxC rest (cnt + 1) (chars + (s.text.length : Int))

/-- The has_lennar flag after the first pass: some selected chunk has
"Lennar" in its file name. -/
def hasLennarFlag (sel : List ScoredChunk) : Bool :=
  sel.any (fun m => strContains "Lennar".data m.file_name)

/-- The has_meritage flag after the first pass: the elif in the loop sets it
only for chunks without "Lennar" in the file name. -/
def hasMeritageFlag (sel : List ScoredChunk) : Bool :=
  sel.any (fun m =>
    !(strContains "Lennar".data m.file_name) &&
      strContains "Meritage".data m.file_name)

/-- One backfill scan of the second pass: append the first scored chunk whose
file name contains the given name and which is not already selected. -/
def backfill (kw : List Char) (scored sel : List ScoredChunk) :
    List ScoredChunk :=
  match scored.find?
      (fun s => strContains kw s.file_name && !(decide (s ∈ sel))) with
  | some s => sel ++ [s]
  | none => sel

/-- Second selection pass of find_matching_documents: backfill a Lennar chunk
and then a Meritage chunk when the corresponding flag from the first pass is
unset; the flags are not refreshed between the two scans, while the
already-selected test of the Meritage scan does see the Lennar backfill. -/
def diversityFill (scored sel : List ScoredChunk) : List ScoredChunk :=
  if hasMeritageFlag sel = true then
    (if hasLennarFlag sel = true then sel
     else backfill ("Lennar".data) scored sel)
  else
    backfill ("Meritage".data) scored
      (if hasLennarFlag sel = true then sel
       else backfill ("Lennar".data) scored sel)

/-- Selection of find_matching_documents: the first pass, then the second
pass only when comparison is wanted and the first pass stayed below
max_sources. -/
def selectMatches (wantsBoth : Bool) (maxS maxC : Int)
    (scored : List ScoredChunk) : List ScoredChunk :=
  if wantsBoth = true ∧ ((pass1 maxS maxC scored 0 0).length : Int) < maxS
  then diversityFill scored (pass1 maxS maxC scored 0 0)
  else pass1 maxS maxC scored 0 0

/-- Embedding of find_matching_documents from clean_find_matching.py: intent
analysis, term expansion, scoring with threshold filter, stable descending
sort, then the two selection passes. The base_url parameter is accepted and,
as in the source, never read. -/
def find_matching_documents (userQuestion : List Char)
    (topics : List (List Char)) (loadedSources : List Chunk)
    (baseUrl : List Char) (maxSources : Int) (matchThreshold : ℚ)
    (maxCharacters : Int) : List ScoredChunk :=
  selectMatches (wantsBothB (pyLower userQuestion)) maxSources maxCharacters
    (sortDesc (scoreSources (buildUniqueTerms userQuestion topics)
      matchThreshold loadedSources))

/-! ### Python exception surface for a missing text field -/

/-- Exceptions of the Python code paths modelled here. -/
inductive PyExc where
  | attributeError
  | keyError
deriving DecidableEq, Repr

/-- Behaviour of the scorer when the text argument may be None: the very
first operation text.lower() raises AttributeError on None, which the caller
re-raises; with a string the scorer runs normally. -/
def calcRelevanceOpt (text : Option (List Char))
    (searchTerms : List (List Char)) (fileName : List Char) :
    Except PyExc ℚ :=
  match text with
  | none => .error .attributeError
  | some t => .ok (calculate_enhanced_relevance t searchTerms fileName)

/-! ### Concrete corpora used to instantiate the claims -/

/-- Corpus with two long high-scoring chunks from other builders followed by
one Lennar and one Meritage chunk, exercising the character-budget stop and
both backfills. -/
def corpusOverflow : List Chunk :=
  [⟨"apr aaa".data, "Other1.pdf".data, 1⟩,
   ⟨"apr bbb".data, "Other2.pdf".data, 2⟩,
   ⟨"c".data, "Lennar.pdf".data, 3⟩,
   ⟨"d".data, "Meritage.pdf".data, 4⟩]

/-- Corpus whose two best chunks are both Lennar, with a Meritage chunk
ranked after them. -/
def corpusLennarHeavy : List Chunk :=
  [⟨"apr x".data, "Lennar1.pdf".data, 1⟩,
   ⟨"apr y".data, "Lennar2.pdf".data, 2⟩,
   ⟨"apr z".data, "Meritage.pdf".data, 3⟩]

/-- Corpus of two keyword-free chunks scoring zero. -/
def corpusPlain : List Chunk :=
  [⟨"aaaa".data, "A.pdf".data, 1⟩,
   ⟨"bbbb".data, "B.pdf".data, 2⟩]

/-- Corpus of one chunk containing one keyword. -/
def corpusSingle : List Chunk :=
  [⟨"apr".data, "A.pdf".data, 1⟩]

/-! ### Lemmas about the string primitives -/

theorem startsWith_length {p l : List Char} (h : startsWith p l = true) :
    p.length ≤ l.length := by
  induction p generalizing l with
  | nil => simp
  | cons c ps ih =>
    cases l with
    | nil => simp [startsWith] at h
    | cons d ls =>
      simp only [startsWith, Bool.and_eq_true] at h
      simpa using ih h.2

theorem startsWith_append {p l : List Char} (u : List Char)
    (h : startsWith p l = true) : startsWith p (l ++ u) = true := by
  induction p generalizing l with
  | nil => simp [startsWith]
  | cons c ps ih =>
    cases l with
    | nil => simp [startsWith] at h
    | cons d ls =>
      simp only [startsWith, Bool.and_eq_true] at h
      simpa [startsWith, h.1] using ih h.2

theorem startsWith_append_eq {p l : List Char} (u : List Char)
    (h : p.length ≤ l.length) : startsWith p (l ++ u) = startsWith p l := by
  induction p generalizing l with
  | nil => simp [startsWith]
  | cons c ps ih =>
    cases l with
    | nil => simp at h
    | cons d ls =>
      simp only [List.length_cons, Nat.add_le_add_iff_right] at h
      simp [startsWith, ih h]

theorem strContains_nil (u : List Char) : strContains [] u = true := by
  cases u <;> simp [strContains, startsWith]

theorem strContains_append {p l : List Char} (u : List Char)
    (h : strContains p l = true) : strContains p (l ++ u) = true := by
  induction l with
  | nil =>
    simp only [strContains] at h
    cases p with
    | nil => exact strContains_nil u
    | cons c ps => simp [startsWith] at h
  | cons d ls ih =>
    simp only [strContains, Bool.or_eq_true] at h ⊢
    rcases h with h | h
    · exact Or.inl (startsWith_append u h)
    · exact Or.inr (ih h)

theorem countAux_zero_of_short {p l : List Char} (n : Nat)
    (h : l.length < p.length) : countAux p l n = 0 := by
  induction l generalizing n with
  | nil => rfl
  | cons c s ih =>
    match n with
    | m + 1 =>
      exact ih m (lt_of_le_of_lt (Nat.le_succ _) h)
    | 0 =>
      rw [countAux]
      have hsw : startsWith p (c :: s) = false := by
        cases hs : startsWith p (c :: s) with
        | true => exact absurd (startsWith_length hs) (Nat.not_le_of_lt h)
        | false => rfl
      rw [hsw]
      simp only [Bool.false_eq_true, if_false]
      exact ih 0 (lt_of_le_of_lt (Nat.le_succ _) h)

theorem countAux_le_append (p : List Char) (l u : List Char) (n : Nat) :
    countAux p l n ≤ countAux p (l ++ u) n := by
  induction l generalizing n with
  | nil => simp [countAux]
  | cons c s ih =>
    match n with
    | m + 1 => simpa [countAux] using ih m
    | 0 =>
      rw [List.cons_append, countAux, countAux]
      cases hsw : startsWith p (c :: s) with
      | true =>
        have h2 : startsWith p (c :: (s ++ u)) = true := by
          simpa using startsWith_append u hsw
        rw [h2]
        simp only [if_true]
        exact Nat.add_le_add_left (by simpa using ih (p.length - 1)) 1
      | false =>
        simp only [Bool.false_eq_true, if_false]
        cases hsw2 : startsWith p (c :: (s ++ u)) with
        | true =>
          have hlong : (c :: s).length < p.length := by
            by_contra hle
            push_neg at hle
            rw [← List.cons_append] at hsw2
            rw [startsWith_append_eq u hle] at hsw2
            rw [hsw2] at hsw
            exact Bool.true_eq_false.mp hsw
          have hzero : countAux p s 0 = 0 :=
            countAux_zero_of_short 0
              (lt_of_le_of_lt (by simp) hlong)
          simp [hzero]
        | false =>
          simp only [Bool.false_eq_true, if_false]
          exact ih 0

theorem pyCount_le_append (p l u : List Char) :
    pyCount p l ≤ pyCount p (l ++ u) := by
  unfold pyCount
  by_cases hp : p = []
  · simp [hp]
  · simp only [hp, if_false]
    exact countAux_le_append p l u 0

theorem nmin_le_right (a b : Nat) : nmin a b ≤ b := by
  unfold nmin
  split <;> omega

theorem nmin_mono_left {a a' : Nat} (b : Nat) (h : a ≤ a') :
    nmin a b ≤ nmin a' b := by
  unfold nmin
  split <;> split <;> omega

theorem strContains_nil_right {p : List Char} (hp : p ≠ []) :
    strContains p [] = false := by
  cases p with
  | nil => exact absurd rfl hp
  | cons c ps => rfl

/-! ### Lemmas about the scorers -/

theorem kwContrib_le_append (tl v : List Char) (kw : List Char × Nat) :
    kwContrib tl kw ≤ kwContrib (tl ++ v) kw := by
  unfold kwContrib
  cases h : strContains kw.1 tl with
  | false => simp only [Bool.false_eq_true, if_false]; exact Nat.zero_le _
  | true =>
    rw [strContains_append v h]
    simp only [if_true]
    exact Nat.mul_le_mul_right kw.2
      (nmin_mono_left 3 (pyCount_le_append kw.1 tl v))

theorem keywordScore_le_append (tl v : List Char) :
    keywordScore tl ≤ keywordScore (tl ++ v) := by
  unfold keywordScore
  exact List.sum_le_sum (fun kw _ => kwContrib_le_append tl v kw)

theorem relevanceNat_le_sixty (text : List Char)
    (searchTerms : List (List Char)) (fileName : List Char) :
    relevanceNat text searchTerms fileName ≤ 60 :=
  nmin_le_right _ 60

theorem relevanceNatE_le_sixty (text : List Char)
    (searchTerms : List (List Char)) (fileName : List Char) :
    relevanceNatE text searchTerms fileName ≤ 60 :=
  nmin_le_right _ 60

theorem score_bounds_of_le_sixty {n : Nat} (h : n ≤ 60) :
    (0 : ℚ) ≤ (n : ℚ) / 60 ∧ (n : ℚ) / 60 ≤ 1 := by
  constructor
  · positivity
  · rw [div_le_one (by norm_num : (0:ℚ) < 60)]
    exact_mod_cast h

theorem wordContrib_nil (w : List Char) : wordContrib [] w = 0 := by
  unfold wordContrib
  by_cases hlen : w.length < 3
  · simp [hlen]
  · have hw : w ≠ [] := by
      intro hnil
      rw [hnil] at hlen
      simp at hlen
    simp [hlen, strContains_nil_right hw]

theorem termScore_nil (term : List Char) : termScore [] term = 0 := by
  unfold termScore
  have hcond : ¬(3 < (pyLower term).length ∧
      strContains (pyLower term) [] = true) := by
    rintro ⟨h1, h2⟩
    have hne : pyLower term ≠ [] := by
      intro hnil
      rw [hnil] at h1
      simp at h1
    rw [strContains_nil_right hne] at h2
    exact Bool.false_ne_true h2
  rw [if_neg hcond]
  have hwords : ∀ x ∈ (pySplit (pyLower term)).map (wordContrib []), x = 0 := by
    intro x hx
    obtain ⟨w, _, rfl⟩ := List.mem_map.mp hx
    exact wordContrib_nil w
  have hfilter : (pySplit (pyLower term)).filter
      (fun w => decide (3 ≤ w.length) && strContains w []) = [] := by
    rw [List.filter_eq_nil_iff]
    intro w _
    by_cases hlen : 3 ≤ w.length
    · have hw : w ≠ [] := by
        intro hnil
        rw [hnil] at hlen
        simp at hlen
      simp [strContains_nil_right hw]
    · simp [hlen]
  simp only [hfilter, List.length_nil, Nat.mul_zero, List.sum_eq_zero hwords,
    Nat.zero_add]
  rw [if_neg]
  rintro ⟨h1, h2⟩
  omega

theorem fileBonus_eq_zero {fl : List Char} {terms : List (List Char)}
    (h : ∀ t ∈ terms, t = [] ∨ strContains (pyLower t) fl = false) :
    fileBonus fl terms = 0 := by
  unfold fileBonus
  rw [if_neg]
  intro hany
  obtain ⟨t, ht, hp⟩ := List.any_eq_true.mp hany
  rw [Bool.and_eq_true] at hp
  rcases h t ht with hnil | hnc
  · rw [hnil] at hp
    simp at hp
  · rw [hnc] at hp
    exact Bool.false_ne_true hp.2

theorem relevanceNat_nil_text {terms : List (List Char)} {fname : List Char}
    (h : ∀ t ∈ terms, t = [] ∨ strContains (pyLower t) (pyLower fname) = false) :
    relevanceNat [] terms fname = 0 := by
  unfold relevanceNat rawScore
  have hkw : keywordScore (pyLower []) = 0 := by decide
  have hpat : patternScore (pyLower []) = 0 := by decide
  have hterms : ∀ x ∈ terms.map
      (fun t => if t = [] then 0 else termScore (pyLower []) t), x = 0 := by
    intro x hx
    obtain ⟨t, _, rfl⟩ := List.mem_map.mp hx
    by_cases ht : t = []
    · simp [ht]
    · simp only [ht, if_false]
      exact termScore_nil t
  simp only [hkw, hpat, List.sum_eq_zero hterms, fileBonus_eq_zero h]
  rfl

/-! ### Lemmas about the selector -/

theorem length_insertDesc (s : ScoredChunk) (l : List ScoredChunk) :
    (insertDesc s l).length = l.length + 1 := by
  induction l with
  | nil => rfl
  | cons t rest ih =>
    rw [insertDesc]
    split
    · simpa using ih
    · rfl

theorem mem_insertDesc {x s : ScoredChunk} {l : List ScoredChunk} :
    x ∈ insertDesc s l ↔ x = s ∨ x ∈ l := by
  induction l with
  | nil => simp [insertDesc]
  | cons t rest ih =>
    rw [insertDesc]
    split
    · simp only [List.mem_cons, ih]
      tauto
    · simp [List.mem_cons]

theorem length_foldl_insertDesc (l acc : List ScoredChunk) :
    (l.foldl (fun a s => insertDesc s a) acc).length =
      acc.length + l.length := by
  induction l generalizing acc with
  | nil => simp
  | cons s rest ih =>
    rw [List.foldl_cons, ih, length_insertDesc]
    simp only [List.length_cons]
    omega

theorem length_sortDesc (l : List ScoredChunk) :
    (sortDesc l).length = l.length := by
  unfold sortDesc
  rw [length_foldl_insertDesc]
  simp

theorem mem_foldl_insertDesc {x : ScoredChunk} (l acc : List ScoredChunk) :
    x ∈ l.foldl (fun a s => insertDesc s a) acc ↔ x ∈ acc ∨ x ∈ l := by
  induction l generalizing acc with
  | nil => simp
  | cons s rest ih =>
    simp only [List.foldl_cons, ih, mem_insertDesc, List.mem_cons]
    tauto

theorem mem_sortDesc {x : ScoredChunk} {l : List ScoredChunk} :
    x ∈ sortDesc l ↔ x ∈ l := by
  unfold sortDesc
  rw [mem_foldl_insertDesc]
  simp

theorem length_scoreSources (terms : List (List Char)) (thr : ℚ)
    (srcs : List Chunk) :
    (scoreSources terms thr srcs).length =
      (srcs.filter
        (fun c => passesThreshold thr (relevanceNat c.text terms c.file_name))
      ).length := by
  induction srcs with
  | nil => rfl
  | cons c rest ih =>
    unfold scoreSources at ih ⊢
    rw [List.filterMap_cons, List.filter_cons]
    by_cases h : passesThreshold thr (relevanceNat c.text terms c.file_name) =
      true
    · simp only [h, if_true]
      simp [ih]
    · have h2 : passesThreshold thr (relevanceNat c.text terms c.file_name) =
        false := by
        cases hb : passesThreshold thr (relevanceNat c.text terms c.file_name)
        · rfl
        · exact absurd hb h
      simp only [h2]
      simp [ih]

theorem mem_scoreSources {r : ScoredChunk} {terms : List (List Char)}
    {thr : ℚ} {srcs : List Chunk} (h : r ∈ scoreSources terms thr srcs) :
    ∃ c ∈ srcs, r.text = c.text ∧ r.file_name = c.file_name ∧
      r.chunk_index = c.chunk_index ∧
      r.match_score = relevanceNat c.text terms c.file_name ∧
      r.url = mkUrl c.file_name c.chunk_index := by
  unfold scoreSources at h
  obtain ⟨c, hc, hfc⟩ := List.mem_filterMap.mp h
  refine ⟨c, hc, ?_⟩
  dsimp only at hfc
  split at hfc
  · rw [← Option.some.inj hfc]
    exact ⟨rfl, rfl, rfl, rfl, rfl⟩
  · cases hfc

theorem pass1_length_bound (maxS maxC : Int) (l : List ScoredChunk)
    (cnt : Nat) (chars : Int) :
    (pass1 maxS maxC l cnt chars).length + cnt ≤ max maxS.toNat cnt := by
  induction l generalizing cnt chars with
  | nil => simp [pass1]
  | cons s rest ih =>
    unfold pass1
    split
    · simp
    · split
      · simp
      · rename_i hstop _
        have hlt : (cnt : Int) < maxS := by omega
        have h1 : cnt + 1 ≤ maxS.toNat := by omega
        have := ih (cnt + 1) (chars + (s.text.length : Int))
        simp only [List.length_cons]
        omega

theorem pass1_length_le (maxS maxC : Int) (l : List ScoredChunk) :
    (pass1 maxS maxC l 0 0).length ≤ maxS.toNat := by
  have := pass1_length_bound maxS maxC l 0 0
  omega

theorem pass1_length_ge_two (maxS maxC : Int) (l : List ScoredChunk)
    (hmax : 2 ≤ maxS) (hlen : 2 ≤ l.length) :
    2 ≤ (pass1 maxS maxC l 0 0).length := by
  match l, hlen with
  | a :: b :: rest, _ =>
    rw [pass1, if_neg (by omega), if_neg (by omega),
        pass1, if_neg (by omega), if_neg (by omega)]
    simp

theorem mem_pass1 {x : ScoredChunk} {maxS maxC : Int} {l : List ScoredChunk}
    {cnt : Nat} {chars : Int} (h : x ∈ pass1 maxS maxC l cnt chars) :
    x ∈ l := by
  induction l generalizing cnt chars with
  | nil => simpa [pass1] using h
  | cons s rest ih =>
    rw [pass1] at h
    split at h
    · simp at h
    · split at h
      · simp at h
      · rcases List.mem_cons.mp h with h | h
        · exact List.mem_cons.mpr (Or.inl h)
        · exact List.mem_cons.mpr (Or.inr (ih h))

theorem backfill_mem_of_mem {x : ScoredChunk} (kw : List Char)
    (scored sel : List ScoredChunk) (h : x ∈ sel) :
    x ∈ backfill kw scored sel := by
  unfold backfill
  split
  · exact List.mem_append_left _ h
  · exact h

theorem mem_backfill {x : ScoredChunk} {kw : List Char}
    {scored sel : List ScoredChunk} (h : x ∈ backfill kw scored sel) :
    x ∈ sel ∨ x ∈ scored := by
  unfold backfill at h
  split at h
  · rename_i s hfind
    rcases List.mem_append.mp h with h | h
    · exact Or.inl h
    · rw [List.mem_singleton.mp h]
      exact Or.inr (List.mem_of_find?_eq_some hfind)
  · exact Or.inl h

theorem backfill_length_le (kw : List Char) (scored sel : List ScoredChunk) :
    (backfill kw scored sel).length ≤ sel.length + 1 := by
  unfold backfill
  split
  · simp
  · omega

theorem backfill_length_ge (kw : List Char) (scored sel : List ScoredChunk) :
    sel.length ≤ (backfill kw scored sel).length := by
  unfold backfill
  split
  · simp
  · omega

theorem backfill_covers {kw : List Char} {scored : List ScoredChunk}
    (sel : List ScoredChunk) {s0 : ScoredChunk} (hs0 : s0 ∈ scored)
    (hkw : strContains kw s0.file_name = true) :
    ∃ r ∈ backfill kw scored sel, strContains kw r.file_name = true := by
  unfold backfill
  cases hfind : scored.find?
      (fun s => strContains kw s.file_name && !(decide (s ∈ sel))) with
  | some s =>
    have hp := List.find?_some hfind
    rw [Bool.and_eq_true] at hp
    exact ⟨s, List.mem_append_right _ (List.mem_singleton.mpr rfl), hp.1⟩
  | none =>
    have hall := List.find?_eq_none.mp hfind s0 hs0
    rw [Bool.and_eq_true, not_and] at hall
    have := hall hkw
    have hmem : s0 ∈ sel := by
      by_contra hnot
      simp [hnot] at this
    exact ⟨s0, hmem, hkw⟩

theorem diversityFill_m1_sub {x : ScoredChunk} (scored sel : List ScoredChunk)
    (h : x ∈ (if hasLennarFlag sel = true then sel
              else backfill ("Lennar".data) scored sel)) :
    x ∈ diversityFill scored sel := by
  unfold diversityFill
  split
  · exact h
  · exact backfill_mem_of_mem _ _ _ h

theorem diversityFill_mem_of_mem {x : ScoredChunk}
    (scored sel : List ScoredChunk) (h : x ∈ sel) :
    x ∈ diversityFill scored sel := by
  apply diversityFill_m1_sub
  split
  · exact h
  · exact backfill_mem_of_mem _ _ _ h

theorem mem_diversityFill {x : ScoredChunk} {scored sel : List ScoredChunk}
    (h : x ∈ diversityFill scored sel) : x ∈ sel ∨ x ∈ scored := by
  unfold diversityFill at h
  split at h
  · split at h
    · exact Or.inl h
    · exact mem_backfill h
  · rcases mem_backfill h with h | h
    · split at h
      · exact Or.inl h
      · exact mem_backfill h
    · exact Or.inr h

theorem diversityFill_length_le (scored sel : List ScoredChunk) :
    (diversityFill scored sel).length ≤ sel.length + 2 := by
  unfold diversityFill
  split
  · split
    · omega
    · have := backfill_length_le "Lennar".data scored sel
      omega
  · split
    · have := backfill_length_le "Meritage".data scored sel
      omega
    · have h1 := backfill_length_le "Lennar".data scored sel
      have h2 := backfill_length_le "Meritage".data scored
        (backfill "Lennar".data scored sel)
      omega

theorem diversityFill_length_ge (scored sel : List ScoredChunk) :
    sel.length ≤ (diversityFill scored sel).length := by
  unfold diversityFill
  split
  · split
    · omega
    · exact backfill_length_ge _ _ _
  · split
    · exact backfill_length_ge _ _ _
    · have h1 := backfill_length_ge "Lennar".data scored sel
      have h2 := backfill_length_ge "Meritage".data scored
        (backfill "Lennar".data scored sel)
      omega

theorem selectMatches_length_le (wb : Bool) (maxS maxC : Int)
    (scored : List ScoredChunk) :
    (selectMatches wb maxS maxC scored).length ≤ maxS.toNat + 1 := by
  unfold selectMatches
  split
  · rename_i hcond
    have hroom := hcond.2
    have hdf := diversityFill_length_le scored (pass1 maxS maxC scored 0 0)
    omega
  · have := pass1_length_le maxS maxC scored
    omega

theorem selectMatches_length_ge_pass1 (wb : Bool) (maxS maxC : Int)
    (scored : List ScoredChunk) :
    (pass1 maxS maxC scored 0 0).length ≤
      (selectMatches wb maxS maxC scored).length := by
  unfold selectMatches
  split
  · exact diversityFill_length_ge _ _
  · omega

theorem mem_selectMatches {x : ScoredChunk} {wb : Bool} {maxS maxC : Int}
    {scored : List ScoredChunk} (h : x ∈ selectMatches wb maxS maxC scored) :
    x ∈ scored := by
  unfold selectMatches at h
  split at h
  · rcases mem_diversityFill h with h | h
    · exact mem_pass1 h
    · exact h
  · exact mem_pass1 h

theorem diversityFill_diverse (sel : List ScoredChunk)
    {scored : List ScoredChunk} {sL sM : ScoredChunk} (hsL : sL ∈ scored)
    (hLkw : strContains "Lennar".data sL.file_name = true)
    (hsM : sM ∈ scored)
    (hMkw : strContains "Meritage".data sM.file_name = true) :
    (∃ r ∈ diversityFill scored sel,
        strContains "Lennar".data r.file_name = true) ∧
    (∃ r ∈ diversityFill scored sel,
        strContains "Meritage".data r.file_name = true) := by
  constructor
  · -- a Lennar chunk ends up in the result
    by_cases hfl : hasLennarFlag sel = true
    · obtain ⟨m, hm, hmm⟩ := List.any_eq_true.mp hfl
      exact ⟨m, diversityFill_mem_of_mem scored sel hm, hmm⟩
    · obtain ⟨r, hr, hrkw⟩ := backfill_covers sel hsL hLkw
      refine ⟨r, diversityFill_m1_sub scored sel ?_, hrkw⟩
      rw [if_neg hfl]
      exact hr
  · -- a Meritage chunk ends up in the result
    by_cases hfm : hasMeritageFlag sel = true
    · obtain ⟨m, hm, hmm⟩ := List.any_eq_true.mp hfm
      rw [Bool.and_eq_true] at hmm
      exact ⟨m, diversityFill_mem_of_mem scored sel hm, hmm.2⟩
    · unfold diversityFill
      rw [if_neg hfm]
      exact backfill_covers _ hsM hMkw

/-! ### Claim theorems -/

/-- C1 counterexample: with maxCount 3, a comparison question and a corpus in
which the character budget stops the first pass at two chunks from other
builders, the second pass appends both a Lennar and a Meritage chunk after
checking the remaining room only once, so the selector returns 4 > 3 results,
contradicting the claimed maxCount bound. -/
theorem C1_counterexample :
    ¬ ((find_matching_documents ("compare".data) [] corpusOverflow [] 3 0 10
      ).length ≤ 3) := by decide

/-- C1 amended: the first selection pass respects the maxCount bound, and the
full selector returns at most maxCount + 1 results; the diversity backfill
checks room below maxCount only once before appending up to two chunks, so it
can overshoot the bound by exactly one. -/
theorem C1_count_bound_amended (q : List Char) (topics : List (List Char))
    (corpus : List Chunk) (b : List Char) (maxS : Int) (thr : ℚ)
    (maxC : Int) :
    (pass1 maxS maxC
      (sortDesc (scoreSources (buildUniqueTerms q topics) thr corpus)) 0 0
      ).length ≤ maxS.toNat ∧
    (find_matching_documents q topics corpus b maxS thr maxC).length ≤
      maxS.toNat + 1 :=
  ⟨pass1_length_le _ _ _, selectMatches_length_le _ _ _ _⟩

/-- C2: whenever at least two chunks pass the match threshold and maxCount is
at least 2, the selector returns at least two results; the character budget is
only consulted once two chunks are already selected, so it cannot cut the
selection below two. -/
theorem C2_minimum_guarantee (q : List Char) (topics : List (List Char))
    (corpus : List Chunk) (b : List Char) (maxS : Int) (thr : ℚ)
    (maxC : Int) (hmax : 2 ≤ maxS)
    (hqual : 2 ≤ (corpus.filter (fun c =>
      passesThreshold thr
        (relevanceNat c.text (buildUniqueTerms q topics) c.file_name))
      ).length) :
    2 ≤ (find_matching_documents q topics corpus b maxS thr maxC).length := by
  have hss : 2 ≤ (scoreSources (buildUniqueTerms q topics) thr corpus
      ).length := by
    rw [length_scoreSources]
    exact hqual
  have hsorted : 2 ≤
      (sortDesc (scoreSources (buildUniqueTerms q topics) thr corpus)
      ).length := by
    rw [length_sortDesc]
    exact hss
  have hp1 := pass1_length_ge_two maxS maxC _ hmax hsorted
  exact le_trans hp1 (selectMatches_length_ge_pass1 _ _ _ _)

/-- C2 witness: a concrete corpus of two zero-scoring chunks at threshold 0
with maxCount 2 and a character budget of 1 that the two texts together
already exceed; both are still returned. -/
theorem C2_minimum_guarantee_witness :
    (2 ≤ (2 : Int)) ∧
    (2 ≤ (corpusPlain.filter (fun c =>
      passesThreshold 0
        (relevanceNat c.text (buildUniqueTerms [] []) c.file_name))
      ).length) ∧
    2 ≤ (find_matching_documents [] [] corpusPlain [] 2 0 1).length :=
  ⟨by decide, by decide,
   C2_minimum_guarantee [] [] corpusPlain [] 2 0 1 (by decide) (by decide)⟩

/-- C3 counterexample: a comparison question over a corpus whose two best
chunks are both Lennar, with maxCount 2: the first pass fills the selection
with the two Lennar chunks, the second pass is skipped because no room is
left, and no Meritage chunk appears even though one is above threshold. -/
theorem C3_counterexample :
    wantsComparisonB (pyLower ("compare".data)) = true ∧
    ((sortDesc (scoreSources (buildUniqueTerms ("compare".data) []) 0
        corpusLennarHeavy)).any
      (fun s => strContains "Lennar".data s.file_name) = true) ∧
    ((sortDesc (scoreSources (buildUniqueTerms ("compare".data) []) 0
        corpusLennarHeavy)).any
      (fun s => strContains "Meritage".data s.file_name) = true) ∧
    (2 ≤ (2 : Int)) ∧
    ((find_matching_documents ("compare".data) [] corpusLennarHeavy [] 2 0
        1000).any
      (fun s => strContains "Meritage".data s.file_name) = false) := by
  decide

/-- C3 amended: under the additional hypothesis that the first pass selects
fewer than maxCount chunks, a comparison question over a corpus containing
above-threshold chunks of both builders yields a selection containing at
least one chunk of each; when the first pass already fills maxCount, the
diversity backfill does not run and one builder can be missing. -/
theorem C3_diversity_amended (q : List Char) (topics : List (List Char))
    (corpus : List Chunk) (b : List Char) (maxS : Int) (thr : ℚ)
    (maxC : Int) (hwb : wantsBothB (pyLower q) = true)
    (hL : ∃ s ∈ sortDesc (scoreSources (buildUniqueTerms q topics) thr
      corpus), strContains "Lennar".data s.file_name = true)
    (hM : ∃ s ∈ sortDesc (scoreSources (buildUniqueTerms q topics) thr
      corpus), strContains "Meritage".data s.file_name = true)
    (hroom : ((pass1 maxS maxC
      (sortDesc (scoreSources (buildUniqueTerms q topics) thr corpus)) 0 0
      ).length : Int) < maxS) :
    (∃ r ∈ find_matching_documents q topics corpus b maxS thr maxC,
      strContains "Lennar".data r.file_name = true) ∧
    (∃ r ∈ find_matching_documents q topics corpus b maxS thr maxC,
      strContains "Meritage".data r.file_name = true) := by
  obtain ⟨sL, hsL, hLkw⟩ := hL
  obtain ⟨sM, hsM, hMkw⟩ := hM
  have hdiv := diversityFill_diverse
    (pass1 maxS maxC
      (sortDesc (scoreSources (buildUniqueTerms q topics) thr corpus)) 0 0)
    hsL hLkw hsM hMkw
  unfold find_matching_documents selectMatches
  rw [if_pos ⟨hwb, hroom⟩]
  exact hdiv

/-- C3 witness: the overflow corpus with maxCount 3 and a tight character
budget leaves the first pass at two chunks, and the final selection indeed
contains a chunk of each builder. -/
theorem C3_diversity_amended_witness :
    (((pass1 3 10 (sortDesc (scoreSources (buildUniqueTerms ("compare".data)
      []) 0 corpusOverflow)) 0 0).length : Int) < 3) ∧
    (∃ r ∈ find_matching_documents ("compare".data) [] corpusOverflow [] 3 0
      10, strContains "Lennar".data r.file_name = true) ∧
    (∃ r ∈ find_matching_documents ("compare".data) [] corpusOverflow [] 3 0
      10, strContains "Meritage".data r.file_name = true) := by
  refine ⟨by decide, ?_⟩
  exact C3_diversity_amended ("compare".data) [] corpusOverflow [] 3 0 10
    (by decide) (by decide) (by decide) (by decide)

/-- C4 counterexample: at threshold 1 no chunk of a two-chunk corpus passes,
and find_matching_documents returns the empty list rather than the claimed
top-2-by-raw-score fallback; the caller in document_rag_explorer.py then
renders a no-results message. -/
theorem C4_counterexample :
    (∀ c ∈ corpusPlain, passesThreshold 1
      (relevanceNat c.text (buildUniqueTerms [] []) c.file_name) = false) ∧
    corpusPlain.length = 2 ∧
    find_matching_documents [] [] corpusPlain [] 5 1 3000 = [] := by decide

/-- C4 amended: when no chunk passes the match threshold the selector returns
the empty list; no lower-the-bar fallback taking the top chunks by raw score
exists anywhere in the code, and the caller shows a no-results message. -/
theorem C4_no_fallback_amended (q : List Char) (topics : List (List Char))
    (corpus : List Chunk) (b : List Char) (maxS : Int) (thr : ℚ)
    (maxC : Int)
    (h : ∀ c ∈ corpus, passesThreshold thr
      (relevanceNat c.text (buildUniqueTerms q topics) c.file_name) = false) :
    find_matching_documents q topics corpus b maxS thr maxC = [] := by
  have hss : scoreSources (buildUniqueTerms q topics) thr corpus = [] := by
    unfold scoreSources
    rw [List.filterMap_eq_nil_iff]
    intro c hc
    dsimp only
    rw [h c hc]
    simp
  unfold find_matching_documents
  rw [hss]
  show selectMatches _ _ _ (sortDesc []) = []
  unfold selectMatches
  split
  · rfl
  · rfl

/-- C4 witness: the concrete zero-passing corpus instantiates the amended
empty-result behaviour. -/
theorem C4_no_fallback_amended_witness :
    (∀ c ∈ corpusPlain, passesThreshold 1
      (relevanceNat c.text (buildUniqueTerms ("x".data) []) c.file_name) =
        false) ∧
    find_matching_documents ("x".data) [] corpusPlain [] 5 1 3000 = [] :=
  ⟨by decide,
   C4_no_fallback_amended ("x".data) [] corpusPlain [] 5 1 3000 (by decide)⟩

/-- C5 counterexample: a chunk whose text is None makes the scorer raise
AttributeError at text.lower() instead of treating the text as empty and
returning score 0. -/
theorem C5_counterexample :
    calcRelevanceOpt none ["apr".data] ("A.pdf".data) =
      Except.error PyExc.attributeError ∧
    calcRelevanceOpt none ["apr".data] ("A.pdf".data) ≠ Except.ok 0 :=
  ⟨rfl, fun h => Except.noConfusion h⟩

/-- C5 amended: a None text raises AttributeError, which
find_matching_documents logs and re-raises, failing the batch; only a chunk
whose text is the actual empty string is scored normally, and it scores 0
whenever no search term occurs in the file name. -/
theorem C5_none_text_amended (terms : List (List Char)) (fname : List Char) :
    calcRelevanceOpt none terms fname = Except.error PyExc.attributeError ∧
    ((∀ t ∈ terms, t = [] ∨
        strContains (pyLower t) (pyLower fname) = false) →
      calcRelevanceOpt (some []) terms fname = Except.ok 0) := by
  refine ⟨rfl, fun h => ?_⟩
  show Except.ok ((relevanceNat [] terms fname : ℚ) / 60) = Except.ok 0
  rw [relevanceNat_nil_text h]
  simp

/-- C5 witness: the empty-string text with one term that does not occur in
the file name scores exactly 0. -/
theorem C5_none_text_amended_witness :
    (∀ t ∈ [("apr".data)], t = [] ∨
      strContains (pyLower t) (pyLower ("Other.pdf".data)) = false) ∧
    calcRelevanceOpt (some []) [("apr".data)] ("Other.pdf".data) =
      Except.ok 0 :=
  ⟨by decide,
   (C5_none_text_amended [("apr".data)] ("Other.pdf".data)).2 (by decide)⟩

/-- C6 counterexample: in enhanced_matching.py the keyword 'apr' (weight 0.5,
scaled 10) occurring 3 times adds min(3 x 0.5, 2 x 0.5) = 1.0 (scaled 20),
not the claimed 0.5 x min(3, 3) = 1.5 (scaled 30): the cited
enhanced_matching scorer caps at twice the weight, not at three
occurrences. -/
theorem C6_counterexample :
    ("apr".data, 10) ∈ criticalKeywordsE ∧
    strContains "apr".data ("apr apr apr".data) = true ∧
    pyCount "apr".data ("apr apr apr".data) = 3 ∧
    kwContribE ("apr apr apr".data) ("apr".data, 10) = 20 ∧
    kwContribE ("apr apr apr".data) ("apr".data, 10) ≠
      10 * nmin (pyCount "apr".data ("apr apr apr".data)) 3 := by decide

/-- C6 amended: the weight x min(count, 3) formula holds for the
critical-keyword pass of clean_find_matching.py and document_rag_explorer.py;
the pass of enhanced_matching.py instead adds min(count x weight, 2 x weight)
for each present keyword. -/
theorem C6_keyword_cap_amended (tl : List Char) :
    keywordScore tl = (criticalKeywords.map (fun kw =>
      if strContains kw.1 tl = true then kw.2 * nmin (pyCount kw.1 tl) 3
      else 0)).sum ∧
    keywordScoreE tl = (criticalKeywordsE.map (fun kw =>
      if strContains kw.1 tl = true then
        nmin (pyCount kw.1 tl * kw.2) (kw.2 * 2)
      else 0)).sum := by
  constructor
  · unfold keywordScore
    congr 1
    apply List.map_congr_left
    intro kw _
    unfold kwContrib
    split
    · exact Nat.mul_comm _ _
    · rfl
  · rfl

/-- C7 counterexample: appending one more occurrence of the recognized
keyword 'cost' to a text strictly lowers the score: the multi-word term
"monthly cost" stops being scored word by word (two keyword weights plus the
completeness bonus, 0.9) and flips into the exact-phrase branch (0.6), while
the keyword pass stays capped at 3 occurrences of 'cost'. -/
theorem C7_counterexample :
    ("cost cost cost monthly cost".data =
      "cost cost cost monthly".data ++ " cost".data) ∧
    ("cost".data, 6) ∈ criticalKeywords ∧
    pyCount "cost".data (pyLower ("cost cost cost monthly cost".data)) =
      pyCount "cost".data (pyLower ("cost cost cost monthly".data)) + 1 ∧
    calculate_enhanced_relevance ("cost cost cost monthly cost".data)
        ["monthly cost".data] ("Other.pdf".data) <
      calculate_enhanced_relevance ("cost cost cost monthly".data)
        ["monthly cost".data] ("Other.pdf".data) := by
  refine ⟨by decide, by decide, by decide, ?_⟩
  have h1 : relevanceNat ("cost cost cost monthly cost".data)
      ["monthly cost".data] ("Other.pdf".data) = 36 := by decide
  have h2 : relevanceNat ("cost cost cost monthly".data)
      ["monthly cost".data] ("Other.pdf".data) = 42 := by decide
  unfold calculate_enhanced_relevance
  rw [h1, h2]
  norm_num

/-- C7 amended: the fixed-vocabulary pass alone is monotone under appending
text (each capped occurrence count only grows), but the total score is not:
a term can flip from word-level matching with completeness bonus into the
cheaper exact-phrase branch. -/
theorem C7_monotonicity_amended (t u : List Char) :
    keywordScore (pyLower t) ≤ keywordScore (pyLower (t ++ u)) := by
  have hmap : pyLower (t ++ u) = pyLower t ++ pyLower u :=
    List.map_append _ _ _
  rw [hmap]
  exact keywordScore_le_append (pyLower t) (pyLower u)

/-- C8: for all inputs, both calculate_enhanced_relevance variants return a
score between 0 and 1: the raw additive score is non-negative, and the final
normalization min(raw / 3, 1) clamps at 1. -/
theorem C8_score_bounds (text : List Char) (terms : List (List Char))
    (fname : List Char) :
    (0 ≤ calculate_enhanced_relevance text terms fname ∧
      calculate_enhanced_relevance text terms fname ≤ 1) ∧
    (0 ≤ calculate_enhanced_relevance_em text terms fname ∧
      calculate_enhanced_relevance_em text terms fname ≤ 1) :=
  ⟨score_bounds_of_le_sixty (relevanceNat_le_sixty text terms fname),
   score_bounds_of_le_sixty (relevanceNatE_le_sixty text terms fname)⟩

/-- C9: find_matching_documents never alters the input chunks: every returned
record carries the text, file name and chunk index of some corpus chunk
unchanged, with the per-query score and url attached only to that copied
record. -/
theorem C9_no_mutation (q : List Char) (topics : List (List Char))
    (corpus : List Chunk) (b : List Char) (maxS : Int) (thr : ℚ)
    (maxC : Int) :
    ∀ r ∈ find_matching_documents q topics corpus b maxS thr maxC,
      ∃ c ∈ corpus, r.text = c.text ∧ r.file_name = c.file_name ∧
        r.chunk_index = c.chunk_index ∧
        r.match_score =
          relevanceNat c.text (buildUniqueTerms q topics) c.file_name ∧
        r.url = mkUrl c.file_name c.chunk_index := by
  intro r hr
  have h1 : r ∈ sortDesc (scoreSources (buildUniqueTerms q topics) thr
      corpus) := mem_selectMatches hr
  exact mem_scoreSources (mem_sortDesc.mp h1)

/-- C9 witness: the single returned record of a one-chunk corpus carries the
fields of that chunk unchanged. -/
theorem C9_no_mutation_witness :
    ((⟨"apr".data, "A.pdf".data, 1, 10, mkUrl ("A.pdf".data) 1⟩ :
      ScoredChunk) ∈ find_matching_documents [] [] corpusSingle [] 5 0 100) ∧
    (∃ c ∈ corpusSingle,
      (⟨"apr".data, "A.pdf".data, 1, 10, mkUrl ("A.pdf".data) 1⟩ :
        ScoredChunk).text = c.text ∧
      (⟨"apr".data, "A.pdf".data, 1, 10, mkUrl ("A.pdf".data) 1⟩ :
        ScoredChunk).file_name = c.file_name ∧
      (⟨"apr".data, "A.pdf".data, 1, 10, mkUrl ("A.pdf".data) 1⟩ :
        ScoredChunk).chunk_index = c.chunk_index ∧
      (⟨"apr".data, "A.pdf".data, 1, 10, mkUrl ("A.pdf".data) 1⟩ :
        ScoredChunk).match_score =
          relevanceNat c.text (buildUniqueTerms [] []) c.file_name ∧
      (⟨"apr".data, "A.pdf".data, 1, 10, mkUrl ("A.pdf".data) 1⟩ :
        ScoredChunk).url = mkUrl c.file_name c.chunk_index) :=
  ⟨by decide,
   C9_no_mutation [] [] corpusSingle [] 5 0 100 _ (by decide)⟩

/-- C10: the base_url parameter has no effect on the result of
find_matching_documents: the function accepts it and never reads it, every
citation url being built from the hardcoded host and document ids. -/
theorem C10_base_url_ignored (q : List Char) (topics : List (List Char))
    (corpus : List Chunk) (b1 b2 : List Char) (maxS : Int) (thr : ℚ)
    (maxC : Int) :
    find_matching_documents q topics corpus b1 maxS thr maxC =
      find_matching_documents q topics corpus b2 maxS thr maxC := rfl

end Dreamfinders
